import Mathlib

/-!
Verification development for `src/core/commands/tags.py` (GitSavvy tags view).

The module renders a text report of local and remote git tags, records the
character ranges ("sections") occupied by the local block and the remote
block(s) in a process-wide dict keyed by view id, and maps text selections
back to `(short_hash, name)` pairs that drive `git tag -d`, `git push` and
`git log` invocations.

Python strings are modelled as `List Char` (`PyStr`); the Sublime view, the
git subprocess layer and the settings are external collaborators, so the
commands are modelled as functions from their inputs to the list of
observable `Effect`s they issue, with Python runtime errors (`KeyError`,
`IndexError`, `NameError`) surfaced through `Except PyErr`.
-/

/-- Model of a Python `str`: a list of unicode characters. -/
abbrev PyStr := List Char

/-- `sublime.Region(a, b)`: a span of character offsets in a view. -/
structure Region where
  a : Nat
  b : Nat
deriving DecidableEq, Repr

/-- A local tag record produced by `get_tags`: attributes `sha` and `tag`. -/
structure TagEntry where
  sha : PyStr
  tag : PyStr
deriving DecidableEq

/-- A remote tag group produced by `get_tags`: attributes `remote` and `entries`. -/
structure RemoteGroup where
  remote : PyStr
  entries : List TagEntry
deriving DecidableEq

/-- One element of the `get_tags` result list.  `sort_tag_entries` distinguishes
the two shapes with `hasattr(item, "remote")`. -/
inductive TagItem where
  | loc (e : TagEntry)
  | group (g : RemoteGroup)
deriving DecidableEq

/-- Python runtime errors the commands can raise. -/
inductive PyErr where
  | keyError
  | indexError
  | nameError
deriving DecidableEq

/-- Observable effects issued by the commands: git subprocess calls, view
updates, Sublime status messages and panels. -/
inductive Effect where
  /-- `self.git("tag", "-d", name)` -/
  | gitTagDelete (name : PyStr)
  /-- `self.git("push", remote, refspec)` -/
  | gitPush (remote : PyStr) (refspec : PyStr)
  /-- `self.git("push", remote, "--tags")` -/
  | gitPushAllTags (remote : PyStr)
  /-- `self.git("tag", name, "-F", "-", stdin=message)` -/
  | gitTagCreate (name : PyStr) (message : PyStr)
  /-- `self.git("log", "-1", "--pretty=medium", hash, show_panel=True)` -/
  | gitLog (hash : PyStr)
  /-- `util.view.refresh_gitsavvy(self.view)` -/
  | refreshView
  /-- `sublime.status_message(m)` -/
  | status (m : PyStr)
  /-- `window.show_quick_panel(items, ...)` -/
  | quickPanel (items : List PyStr)
  /-- `window.show_input_panel(caption, ...)` -/
  | inputPanel (caption : PyStr)
deriving DecidableEq

/-! ### Module-level string constants of `tags.py` -/

def TAG_DELETE_MESSAGE : PyStr := "Tag deleted.".data

def TAG_CREATE_PROMPT : PyStr := "Enter tag:".data

def TAG_CREATE_MESSAGE_PROMPT : PyStr := "Enter message:".data

def START_PUSH_MESSAGE : PyStr := "Starting push...".data

def END_PUSH_MESSAGE : PyStr := "Push complete.".data

def NO_TAGS_MESSAGE : PyStr := "\n  Your repository has no tags.\n".data

def LOADING_TAGS_MESSAGE : PyStr :=
  "\n  Please stand by while fetching tags from remote(s).\n".data

def KEY_BINDINGS_MENU : PyStr :=
  ("\n  #############\n  ## ACTIONS ##\n  #############\n\n  [c] create\n  [d] delete\n"
    ++ "  [p] push to remote\n  [P] push all tags to remote\n  [l] view commit\n\n"
    ++ "  ###########\n  ## OTHER ##\n  ###########\n\n  [r] refresh status\n\n-\n").data

/-- `VIEW_HEADER_TEMPLATE.format(branch_status=…, repo_root=…, current_head=…)` -/
def VIEW_HEADER_TEMPLATE_fmt (branch_status repo_root current_head : PyStr) : PyStr :=
  "\n  BRANCH:  ".data ++ branch_status ++ "\n  ROOT:    ".data ++ repo_root
    ++ "\n  HEAD:    ".data ++ current_head ++ "\n".data

/-- `LOCAL_TEMPLATE.format(lines)` -/
def LOCAL_TEMPLATE_fmt (lines : PyStr) : PyStr :=
  "\n  LOCAL:\n".data ++ lines ++ "\n".data

/-- `REMOTE_TEMPLATE.format(remote, lines)` -/
def REMOTE_TEMPLATE_fmt (remote lines : PyStr) : PyStr :=
  "\n  REMOTE (".data ++ remote ++ "):\n".data ++ lines ++ "\n".data

/-! ### Rendering (`GsTagsRefreshCommand.get_contents`) -/

/-- Python `sep.join(xs)`. -/
def joinSep (sep : Char) : List PyStr → PyStr
  | [] => []
  | [x] => x
  | x :: y :: xs => x ++ sep :: joinSep sep (y :: xs)

/-- One rendered tag line: `"    {} {}".format(t.sha[:7], t.tag)`. -/
def tagLine (t : TagEntry) : PyStr :=
  "    ".data ++ t.sha.take 7 ++ " ".data ++ t.tag

/-- `GsTagsRefreshCommand.sort_tag_entries`: partition the `get_tags` result
into local entries and remote groups, preserving order. -/
def sort_tag_entries : List TagItem → List TagEntry × List RemoteGroup
  | [] => ([], [])
  | .loc e :: rest =>
    let p := sort_tag_entries rest
    (e :: p.1, p.2)
  | .group g :: rest =>
    let p := sort_tag_entries rest
    (p.1, g :: p.2)

/-- The local block's text (`LOCAL_TEMPLATE.format(local_lines)`), or empty
when there are no local tags. -/
def localBlock (loc : List TagEntry) : PyStr :=
  if loc.isEmpty then [] else LOCAL_TEMPLATE_fmt (joinSep '\n' (loc.map tagLine))

/-- One remote block's text (`REMOTE_TEMPLATE.format(group.remote, remote_lines)`). -/
def remoteBlockText (g : RemoteGroup) : PyStr :=
  REMOTE_TEMPLATE_fmt g.remote (joinSep '\n' (g.entries.map tagLine))

/-- The body of the `for group in remotes` loop: accumulate the block text,
set `remote_region` to the block's span (overwriting the previous one) and
advance the cursor. -/
def remoteFoldStep (acc : PyStr × Region × Nat) (g : RemoteGroup) : PyStr × Region × Nat :=
  let remote_text := remoteBlockText g
  (acc.1 ++ remote_text,
   Region.mk acc.2.2 (acc.2.2 + remote_text.length),
   acc.2.2 + remote_text.length)

/-- `get_contents(loading=False)`: build the full report text and the pair
`(local_region, remote_region)` that is stored in `view_section_ranges`. -/
def get_contents (b r h : PyStr) (tag_list : List TagItem) : PyStr × (Region × Region) :=
  let header := VIEW_HEADER_TEMPLATE_fmt b r h
  let loc := (sort_tag_entries tag_list).1
  let remotes := (sort_tag_entries tag_list).2
  let local_text := localBlock loc
  let local_region :=
    if loc.isEmpty then Region.mk 0 0
    else Region.mk header.length (header.length + local_text.length)
  let res := remotes.foldl remoteFoldStep ([], Region.mk 0 0, header.length + local_text.length)
  let view_text := if (local_text ++ res.1).isEmpty then NO_TAGS_MESSAGE else local_text ++ res.1
  (header ++ view_text ++ KEY_BINDINGS_MENU, (local_region, res.2.1))

/-- `get_contents(loading=True)`: header, loading placeholder and menu. -/
def get_contents_loading (b r h : PyStr) : PyStr :=
  VIEW_HEADER_TEMPLATE_fmt b r h ++ LOADING_TAGS_MESSAGE ++ KEY_BINDINGS_MENU

/-! ### Selection resolution

`util.view.get_lines_from_regions` is called by the delete/push/log commands
but its source is not part of this repository slice, so it is modelled from
the spec (§4.2). -/

/-- Split a text into its lines at `'\n'` (the separators are dropped; a text
with no newline is one line). -/
def splitLines : PyStr → List PyStr
  | [] => [[]]
  | c :: cs =>
    if c = '\n' then [] :: splitLines cs
    else
      match splitLines cs with
      | [] => [[c]]
      | l :: ls => (c :: l) :: ls

/-- Attach to each line its half-open character span `[start, start+len]`
(the position one past the end is the newline separator). -/
def spansAux : Nat → List PyStr → List (PyStr × Nat × Nat)
  | _, [] => []
  | off, l :: ls => (l, off, off + l.length) :: spansAux (off + l.length + 1) ls

/-- Keep the lines that contain a selected offset and whose span lies inside
one of the valid ranges. -/
def keptLines (spans : List (PyStr × Nat × Nat)) (sel : List Nat) (ranges : List Region) :
    List PyStr :=
  spans.filterMap fun lse =>
    if (sel.any fun p => decide (lse.2.1 ≤ p) && decide (p ≤ lse.2.2)) &&
       (ranges.any fun rg => decide (rg.a ≤ lse.2.1) && decide (lse.2.2 ≤ rg.b))
    then some lse.1 else none

/-- Modelled from the spec: `util.view.get_lines_from_regions` is not in the
source tree.  Per spec §4.2, for each selected position find the line of
`text` it falls in, keep only lines whose full character span lies within one
of the given ranges, and return them de-duplicated in line order. -/
def get_lines_from_regions (text : PyStr) (sel : List Nat) (valid_ranges : List Region) :
    List PyStr :=
  keptLines (spansAux 0 (splitLines text)) sel valid_ranges

/-- Python `s.strip()`: drop whitespace from both ends. -/
def pyStrip (s : PyStr) : PyStr :=
  ((s.dropWhile Char.isWhitespace).reverse.dropWhile Char.isWhitespace).reverse

/-- Worker for `pySplit`, carrying the (reversed) current word. -/
def pySplitAux (cur : PyStr) : PyStr → List PyStr
  | [] => if cur.isEmpty then [] else [cur.reverse]
  | c :: cs =>
    if c.isWhitespace then
      if cur.isEmpty then pySplitAux [] cs else cur.reverse :: pySplitAux [] cs
    else pySplitAux (c :: cur) cs

/-- Python `s.split()` with no separator: split on whitespace runs, no empties. -/
def pySplit (s : PyStr) : List PyStr := pySplitAux [] s

/-- `line[4:].strip().split()` — the per-line parse used by delete/push/log. -/
def parse_line (line : PyStr) : List PyStr := pySplit (pyStrip (line.drop 4))

/-- `tuple(line[4:].strip().split() for line in lines if line)` applied to the
lines returned by `get_lines_from_regions`. -/
def resolve_items (text : PyStr) (sel : List Nat) (valid_ranges : List Region) :
    List (List PyStr) :=
  ((get_lines_from_regions text sel valid_ranges).filter (fun l => !l.isEmpty)).map parse_line

/-! ### The process-wide section-range dict and the commands -/

/-- The module-global `view_section_ranges` dict, keyed by `view.id()`. -/
abbrev ViewSectionRanges := List (Nat × (Region × Region))

/-- Python `d[k]` lookup result (before raising). -/
def dict_get (m : ViewSectionRanges) (k : Nat) : Option (Region × Region) :=
  (m.find? (fun p => p.1 == k)).map (·.2)

/-- Turn an optional value into the given Python error (`d[k]` → `KeyError`,
`l[i]` → `IndexError`). -/
def pyGet {α : Type} (o : Option α) (e : PyErr) : Except PyErr α :=
  match o with
  | some a => .ok a
  | none => .error e

/-- Python `l[i]` on a list. -/
def pyIndex {α : Type} (l : List α) (i : Nat) : Except PyErr α :=
  pyGet (l.get? i) .indexError

/-- `view_section_ranges[self.view.id()][:3]` — the stored value is the pair
`(local_region, remote_region)`, so `[:3]` yields both regions. -/
def slice3 (p : Region × Region) : List Region := [p.1, p.2]

/-- The `for item in items: self.git("tag", "-d", item[1])` loop of
`GsTagDeleteCommand.run`: one delete call per item, raising `IndexError` on an
item without a second field. -/
def deleteEffects : List (List PyStr) → Except PyErr (List Effect)
  | [] => pure []
  | item :: rest => do
    let name ← pyIndex item 1
    let es ← deleteEffects rest
    pure (Effect.gitTagDelete name :: es)

/-- `GsTagDeleteCommand.run`: resolve the selection, and if any items were
found run `git tag -d name` for each, refresh, and show `TAG_DELETE_MESSAGE`. -/
def gs_tag_delete_run (view_section_ranges : ViewSectionRanges) (view_id : Nat)
    (text : PyStr) (sel : List Nat) : Except PyErr (List Effect) := do
  let stored ← pyGet (dict_get view_section_ranges view_id) .keyError
  let items := resolve_items text sel (slice3 stored)
  if items.isEmpty then pure []
  else do
    let dels ← deleteEffects items
    pure (dels ++ [Effect.refreshView, Effect.status TAG_DELETE_MESSAGE])

/-- The `refs += "refs/tags/" + item[1] + ":"` loop of `on_select_remote`. -/
def buildRefsAux (refs : PyStr) : List (List PyStr) → Except PyErr PyStr
  | [] => pure refs
  | item :: rest => do
    let name ← pyIndex item 1
    buildRefsAux (refs ++ "refs/tags/".data ++ name ++ ":".data) rest

/-- The refspec string built by `GsTagPushCommand.on_select_remote`:
`refs += "refs/tags/" + item[1] + ":"` for each item, then `refs[:-1]`. -/
def buildRefs (items : List (List PyStr)) : Except PyErr PyStr := do
  let refs ← buildRefsAux [] items
  pure refs.dropLast

/-- `GsTagPushCommand.on_select_remote`: `remote_index = -1` means the quick
panel was cancelled.  `items = none` models the `items` attribute being unset
(`push_all` flow), making `hasattr(self, "items")` false. -/
def on_select_remote (push_all : Bool) (items : Option (List (List PyStr)))
    (remotes : List PyStr) (remote_index : Int) : Except PyErr (List Effect) :=
  if remote_index = -1 then pure []
  else do
    let selected_remote ← pyIndex remotes remote_index.toNat
    if push_all then
      pure [Effect.status START_PUSH_MESSAGE, Effect.gitPushAllTags selected_remote,
            Effect.status END_PUSH_MESSAGE]
    else
      match items with
      | some its =>
        if its.isEmpty then
          pure [Effect.status START_PUSH_MESSAGE, Effect.status END_PUSH_MESSAGE]
        else do
          let refs ← buildRefs its
          pure [Effect.status START_PUSH_MESSAGE, Effect.gitPush selected_remote refs,
                Effect.status END_PUSH_MESSAGE]
      | none =>
        pure [Effect.status START_PUSH_MESSAGE, Effect.status END_PUSH_MESSAGE]

/-- `GsTagPushCommand.run` followed by `run_async` and `on_select_remote`.
Note: when no remotes are configured, line 298 evaluates `NO_REMOTES_MESSAGE`,
a name that is defined nowhere in the module, so Python raises `NameError`. -/
def gs_tag_push_run (view_section_ranges : ViewSectionRanges) (view_id : Nat)
    (text : PyStr) (sel : List Nat) (push_all : Bool) (remotes : List PyStr)
    (remote_index : Int) : Except PyErr (List Effect) := do
  let items ←
    if push_all then pure (none : Option (List (List PyStr)))
    else do
      let stored ← pyGet (dict_get view_section_ranges view_id) .keyError
      pure (some (resolve_items text sel (slice3 stored)))
  if remotes.isEmpty then Except.error .nameError
  else do
    let rest ← on_select_remote push_all items remotes remote_index
    pure (Effect.quickPanel remotes :: rest)

/-- `GsTagViewLogCommand.run`: resolve the selection, and show the log for the
first resolved item's hash only (`break` after the first iteration). -/
def gs_tag_view_log_run (view_section_ranges : ViewSectionRanges) (view_id : Nat)
    (text : PyStr) (sel : List Nat) : Except PyErr (List Effect) := do
  let stored ← pyGet (dict_get view_section_ranges view_id) .keyError
  let items := resolve_items text sel (slice3 stored)
  match items with
  | [] => pure []
  | item :: _ => do
    let h ← pyIndex item 0
    pure [Effect.gitLog h]

/-! ### `GsTagCreateCommand` (interactive flow) -/

/-- Input-panel/quick-panel result: a string, or the distinguished cancel
signal (the `-1` sentinel tested by `on_entered_message`). -/
inductive PanelInput where
  | str (s : PyStr)
  | cancel
deriving DecidableEq

/-- `GsTagCreateCommand.on_entered_tag`: empty input aborts; otherwise prompt
for a message. -/
def on_entered_tag (tag_name : PyStr) : List Effect :=
  if tag_name.isEmpty then [] else [Effect.inputPanel TAG_CREATE_MESSAGE_PROMPT]

/-- `GsTagCreateCommand.on_entered_message`: the cancel sentinel aborts; an
empty message is replaced by the configured default template applied to the
tag name; then `git tag name -F -` is run with the message on stdin. -/
def on_entered_message (tag_name : PyStr) (default_tag_message : PyStr → PyStr)
    (message : PanelInput) : List Effect :=
  match message with
  | .cancel => []
  | .str m =>
    let msg := if m.isEmpty then default_tag_message tag_name else m
    [Effect.gitTagCreate tag_name msg]

/-! ### Refresh as a two-task sequence (`run_async`, then `append_tags`) -/

/-- The per-view state visible to selection resolution: the displayed text and
the `view_section_ranges` entry.  `sectionsFor` is a ghost field recording
which text the currently stored sections were computed from. -/
structure ViewState where
  displayed : PyStr
  sections : Option (Region × Region)
  sectionsFor : Option PyStr
deriving DecidableEq

/-- Task 1 of a refresh (`run_async`): display the loading placeholder and
schedule `append_tags`.  The stored sections are not touched. -/
def refresh_run_async (b r h : PyStr) (st : ViewState) : ViewState :=
  { st with displayed := get_contents_loading b r h }

/-- Task 2 of a refresh (`append_tags`): compute the full contents, store the
section ranges and replace the view text — all within one deferred task. -/
def refresh_append_tags (b r h : PyStr) (tag_list : List TagItem) (_st : ViewState) :
    ViewState :=
  let cr := get_contents b r h tag_list
  { displayed := cr.1, sections := some cr.2, sectionsFor := some cr.1 }

/-- The stored sections describe the text that is currently displayed. -/
def consistent (st : ViewState) : Prop :=
  st.sectionsFor = none ∨ st.sectionsFor = some st.displayed

/-! ### Derived quantities used in theorem statements -/

/-- A whitespace-free, non-empty token (git forbids whitespace in refnames). -/
def isWord (w : PyStr) : Prop := w ≠ [] ∧ ∀ c ∈ w, c.isWhitespace = false

/-- Two regions overlap when some offset lies strictly inside both. -/
def overlaps (r1 r2 : Region) : Prop :=
  ∃ x, (r1.a ≤ x ∧ x < r1.b) ∧ (r2.a ≤ x ∧ x < r2.b)

/-- Concatenation of the rendered remote blocks. -/
def remoteConcat : List RemoteGroup → PyStr
  | [] => []
  | g :: gs => remoteBlockText g ++ remoteConcat gs

/-- Start offset of the line of the `(l1.length)`-th local tag in the full
render: header, then `"\n  LOCAL:\n"` (10 chars), then one line plus newline
per preceding entry. -/
def localLineStart (b r h : PyStr) (l1 : List TagEntry) : Nat :=
  (VIEW_HEADER_TEMPLATE_fmt b r h).length + 10
    + ((l1.map (fun e => (tagLine e).length + 1)).sum)

/-- Start offset of the line of the `(e1.length)`-th entry of the last remote
group in the full render: header, local block, earlier remote blocks, then
`"\n  REMOTE ("` (11 chars), the remote name, `"):\n"` (3 chars), then one
line plus newline per preceding entry of the group. -/
def remoteLineStart (b r h : PyStr) (L : List TagEntry) (gs : List RemoteGroup)
    (rname : PyStr) (e1 : List TagEntry) : Nat :=
  (VIEW_HEADER_TEMPLATE_fmt b r h).length + (localBlock L).length
    + (remoteConcat gs).length + 14 + rname.length
    + ((e1.map (fun e => (tagLine e).length + 1)).sum)

/-- Concatenation of `"refs/tags/" + item[1] + ":"` pieces, as accumulated by
the loop in `on_select_remote` before the final `refs[:-1]`. -/
def refsWithColons : List (List PyStr) → PyStr
  | [] => []
  | it :: its => "refs/tags/".data ++ it.getD 1 [] ++ ':' :: refsWithColons its

/-! ## Helper lemmas -/

theorem except_bind_ok {α β : Type} (a : α) (f : α → Except PyErr β) :
    (Except.ok a >>= f) = f a := rfl

theorem except_bind_err {α β : Type} (e : PyErr) (f : α → Except PyErr β) :
    ((Except.error e : Except PyErr α) >>= f) = Except.error e := rfl

theorem except_pure {α : Type} (a : α) : (pure a : Except PyErr α) = Except.ok a := rfl

theorem pyGet_some {α : Type} (a : α) (e : PyErr) : pyGet (some a) e = Except.ok a := rfl

theorem pyGet_none {α : Type} (e : PyErr) : pyGet (none : Option α) e = Except.error e := rfl

/-! ## C9, C10, C8 -/

/-- C9: once a prompt is answered with the distinguished cancel signal (or the
tag-name prompt with empty input), no mutating repository call is issued and
the flow aborts silently: a cancelled message prompt in CreateTag issues no
create-tag call, an empty tag name stops the flow, and a cancelled remote
choice in PushSelected issues no push call and no status message. -/
theorem prompt_cancel_no_mutation :
    (∀ (tag_name : PyStr) (dm : PyStr → PyStr),
      on_entered_message tag_name dm PanelInput.cancel = []) ∧
    on_entered_tag [] = [] ∧
    (∀ (push_all : Bool) (items : Option (List (List PyStr))) (remotes : List PyStr),
      on_select_remote push_all items remotes (-1) = Except.ok []) :=
  ⟨fun _ _ => rfl, rfl, fun _ _ _ => rfl⟩

/-- C10: on a view whose id has no entry in the process-wide
`view_section_ranges` map (no full render ever completed), DeleteSelected,
PushSelected with `push_all=false`, and ShowLogForSelection all fail with a
missing-key error instead of resolving to an empty selection. -/
theorem unrendered_view_key_error (m : ViewSectionRanges) (vid : Nat) (text : PyStr)
    (sel : List Nat) (remotes : List PyStr) (ri : Int)
    (h : dict_get m vid = none) :
    gs_tag_delete_run m vid text sel = Except.error PyErr.keyError ∧
    gs_tag_push_run m vid text sel false remotes ri = Except.error PyErr.keyError ∧
    gs_tag_view_log_run m vid text sel = Except.error PyErr.keyError := by
  refine ⟨?_, ?_, ?_⟩ <;>
    simp [gs_tag_delete_run, gs_tag_push_run, gs_tag_view_log_run, h, pyGet_none,
      except_bind_err]

/-- C10 witness: the empty map has no entry for view 0, and all three
selection-based commands fail with `KeyError` there. -/
theorem unrendered_view_key_error_witness :
    dict_get [] 0 = none ∧
    (gs_tag_delete_run [] 0 [] [] = Except.error PyErr.keyError ∧
     gs_tag_push_run [] 0 [] [] false [] 0 = Except.error PyErr.keyError ∧
     gs_tag_view_log_run [] 0 [] [] = Except.error PyErr.keyError) :=
  ⟨rfl, unrendered_view_key_error [] 0 [] [] [] 0 rfl⟩

/-- C8 counterexample: a refresh is not an atomic swap.  After the first
refresh task (`run_async`) replaces the view text with the loading
placeholder, the stored section ranges still describe the previous full
render, so at this reachable scheduling point selection resolution would use
section ranges recorded for a different text than the one displayed. -/
theorem refresh_atomic_swap_cex :
    ¬ consistent (refresh_run_async "b".data "r".data "h".data
      (refresh_append_tags "b".data "r".data "h".data
        [TagItem.loc ⟨"aaaaaaa".data, "v1.0".data⟩]
        ⟨[], none, none⟩)) := by
  unfold consistent
  decide

/-- C8 (amended): the final refresh task `append_tags` stores the new section
ranges and replaces the displayed text within one deferred task, so every
completed refresh leaves the snapshot consistent; the stale window exists only
between the loading display and `append_tags`. -/
theorem append_tags_consistent (b r h : PyStr) (tag_list : List TagItem) (st : ViewState) :
    consistent (refresh_append_tags b r h tag_list st) :=
  Or.inr rfl

theorem get?_one_of_len (it : List PyStr) (h : 2 ≤ it.length) :
    it.get? 1 = some (it.getD 1 []) := by
  cases it with
  | nil => simp at h
  | cons a t =>
    cases t with
    | nil => simp at h
    | cons b t2 => rfl

theorem deleteEffects_eq (items : List (List PyStr))
    (hshape : ∀ item ∈ items, 2 ≤ item.length) :
    deleteEffects items
      = Except.ok (items.map (fun item => Effect.gitTagDelete (item.getD 1 []))) := by
  induction items with
  | nil => rfl
  | cons it its ih =>
    have h1 : it.get? 1 = some (it.getD 1 []) := get?_one_of_len it (hshape it (by simp))
    have h2 := ih (fun x hx => hshape x (by simp [hx]))
    simp only [deleteEffects, pyIndex, h1, pyGet_some, except_bind_ok, h2, except_pure,
      List.map_cons]

/-! ## C3 and C6 (DeleteSelected) -/

/-- C3 counterexample: the success report does not carry a count.  Deleting
one tag and deleting two tags both end with the same fixed status message
`"Tag deleted."`, so DeleteSelected reports no success count. -/
theorem delete_success_count_cex :
    gs_tag_delete_run [(1, (Region.mk 0 16, Region.mk 0 0))] 1
        "    aaaaaaa v1.0".data [0]
      = Except.ok [Effect.gitTagDelete "v1.0".data, Effect.refreshView,
          Effect.status "Tag deleted.".data] ∧
    gs_tag_delete_run [(1, (Region.mk 0 33, Region.mk 0 0))] 1
        "    aaaaaaa v1.0\n    bbbbbbb v2.0".data [0, 20]
      = Except.ok [Effect.gitTagDelete "v1.0".data, Effect.gitTagDelete "v2.0".data,
          Effect.refreshView, Effect.status "Tag deleted.".data] :=
  ⟨rfl, rfl⟩

/-- C3 (amended): DeleteSelected issues one delete-by-name call per resolved
reference (using the name field `item[1]`, never the hash), then triggers a
refresh and reports a fixed confirmation message (`"Tag deleted."`, without a
count); when resolution yields zero entries it issues no repository call, no
refresh and no message.  Stated for selections whose resolved items all have
the tag-line shape. -/
theorem delete_effects (m : ViewSectionRanges) (vid : Nat) (text : PyStr) (sel : List Nat)
    (stored : Region × Region) (hs : dict_get m vid = some stored)
    (hshape : ∀ item ∈ resolve_items text sel (slice3 stored), 2 ≤ item.length) :
    gs_tag_delete_run m vid text sel = Except.ok
      (if (resolve_items text sel (slice3 stored)).isEmpty then []
       else (resolve_items text sel (slice3 stored)).map
              (fun item => Effect.gitTagDelete (item.getD 1 []))
            ++ [Effect.refreshView, Effect.status TAG_DELETE_MESSAGE]) := by
  simp only [gs_tag_delete_run, hs, pyGet_some, except_bind_ok]
  by_cases hempty : (resolve_items text sel (slice3 stored)).isEmpty
  · simp only [hempty, if_true, except_pure]
  · simp only [hempty, if_false, Bool.false_eq_true, deleteEffects_eq _ hshape,
      except_bind_ok, except_pure]

/-- C3 witness: a concrete one-tag selection resolves to one item, satisfies
the shape hypothesis, and produces the delete/refresh/status effects. -/
theorem delete_effects_witness :
    dict_get [(1, (Region.mk 0 16, Region.mk 0 0))] 1 = some (Region.mk 0 16, Region.mk 0 0) ∧
    gs_tag_delete_run [(1, (Region.mk 0 16, Region.mk 0 0))] 1 "    aaaaaaa v1.0".data [5]
      = Except.ok
        (if (resolve_items "    aaaaaaa v1.0".data [5]
              (slice3 (Region.mk 0 16, Region.mk 0 0))).isEmpty then []
         else (resolve_items "    aaaaaaa v1.0".data [5]
                (slice3 (Region.mk 0 16, Region.mk 0 0))).map
                (fun item => Effect.gitTagDelete (item.getD 1 []))
              ++ [Effect.refreshView, Effect.status TAG_DELETE_MESSAGE]) :=
  ⟨rfl, delete_effects [(1, (Region.mk 0 16, Region.mk 0 0))] 1 "    aaaaaaa v1.0".data [5]
    (Region.mk 0 16, Region.mk 0 0) rfl (by decide)⟩

/-- C6 counterexample: the section-title line `"  LOCAL:"` lies inside the
recorded local section range, is not blank, and parses (via
`line[4:].strip().split()`) to the single token `"CAL:"`, so DeleteSelected
on a selection of that line raises `IndexError` on `item[1]` instead of
skipping it. -/
theorem selection_parse_total_cex :
    (let cr := get_contents "b".data "r".data "h".data
        [TagItem.loc ⟨"aaaaaaa".data, "v1.0".data⟩]
     gs_tag_delete_run [(1, cr.2)] 1 cr.1 [43] = Except.error PyErr.indexError) :=
  rfl

/-- C6 (amended): resolution strips the 4-character indent and splits on
whitespace, silently skipping blank lines; the per-item operations are
well-defined whenever every resolved item has the tag-line shape (at least
two fields) — a selected section-title line violates that shape and makes
delete fail with `IndexError`. -/
theorem delete_ok_of_tag_shaped (m : ViewSectionRanges) (vid : Nat) (text : PyStr)
    (sel : List Nat) (stored : Region × Region) (hs : dict_get m vid = some stored)
    (hshape : ∀ item ∈ resolve_items text sel (slice3 stored), 2 ≤ item.length) :
    ∃ effs, gs_tag_delete_run m vid text sel = Except.ok effs := by
  refine ⟨if (resolve_items text sel (slice3 stored)).isEmpty then []
          else (resolve_items text sel (slice3 stored)).map
                 (fun item => Effect.gitTagDelete (item.getD 1 []))
               ++ [Effect.refreshView, Effect.status TAG_DELETE_MESSAGE], ?_⟩
  simp only [gs_tag_delete_run, hs, pyGet_some, except_bind_ok]
  by_cases hempty : (resolve_items text sel (slice3 stored)).isEmpty
  · simp only [hempty, if_true, except_pure]
  · simp only [hempty, if_false, Bool.false_eq_true, deleteEffects_eq _ hshape,
      except_bind_ok, except_pure]

/-- C6 witness: on a selection of an actual tag line the shape hypothesis
holds and delete succeeds. -/
theorem delete_ok_of_tag_shaped_witness :
    ∃ effs, gs_tag_delete_run [(1, (Region.mk 0 16, Region.mk 0 0))] 1
      "    aaaaaaa v1.0".data [7] = Except.ok effs :=
  delete_ok_of_tag_shaped [(1, (Region.mk 0 16, Region.mk 0 0))] 1
    "    aaaaaaa v1.0".data [7] (Region.mk 0 16, Region.mk 0 0) rfl (by decide)

theorem buildRefsAux_eq (items : List (List PyStr))
    (hshape : ∀ it ∈ items, 2 ≤ it.length) :
    ∀ acc, buildRefsAux acc items = Except.ok (acc ++ refsWithColons items) := by
  induction items with
  | nil => intro acc; simp [buildRefsAux, refsWithColons, except_pure]
  | cons it its ih =>
    intro acc
    have h1 : it.get? 1 = some (it.getD 1 []) := get?_one_of_len it (hshape it (by simp))
    have h2 := ih (fun x hx => hshape x (by simp [hx]))
    simp only [buildRefsAux, pyIndex, h1, pyGet_some, except_bind_ok, h2, refsWithColons]
    congr 1
    simp [List.append_assoc]

theorem dropLast_refsWithColons (items : List (List PyStr)) (hne : items ≠ []) :
    (refsWithColons items).dropLast
      = joinSep ':' (items.map (fun it => "refs/tags/".data ++ it.getD 1 [])) := by
  induction items with
  | nil => cases hne rfl
  | cons it its ih =>
    cases its with
    | nil =>
      show ("refs/tags/".data ++ it.getD 1 [] ++ [':']).dropLast = _
      rw [List.dropLast_concat]
      simp [joinSep]
    | cons it2 its2 =>
      have h2 := ih (by simp)
      show ("refs/tags/".data ++ it.getD 1 [] ++ (':' :: refsWithColons (it2 :: its2))).dropLast = _
      have hr : refsWithColons (it2 :: its2) ≠ [] := by
        simp [refsWithColons]
      rw [show (':' :: refsWithColons (it2 :: its2)) = [':'] ++ refsWithColons (it2 :: its2) from rfl,
        ← List.append_assoc, List.dropLast_append_of_ne_nil _ hr, h2]
      simp [joinSep, List.append_assoc]

theorem buildRefs_eq (items : List (List PyStr)) (hne : items ≠ [])
    (hshape : ∀ it ∈ items, 2 ≤ it.length) :
    buildRefs items = Except.ok
      (joinSep ':' (items.map (fun it => "refs/tags/".data ++ it.getD 1 []))) := by
  simp only [buildRefs, buildRefsAux_eq items hshape [], except_bind_ok, List.nil_append,
    except_pure, dropLast_refsWithColons items hne]

theorem isEmpty_false_of_get? {α : Type} (l : List α) (i : Nat) (x : α)
    (h : l.get? i = some x) : l.isEmpty = false := by
  cases l with
  | nil => simp at h
  | cons a t => rfl

/-! ## C1 and C4 (PushSelected with push_all = false) -/

/-- C1: for a non-empty resolved selection of tag-shaped items and a chosen
remote, PushSelected with `push_all=false` issues exactly one push call to the
chosen remote, whose refspec argument combines exactly the selected tag refs
`refs/tags/<name>`, joined by `":"` — no other refs, no ref omitted, and no
other git call. -/
theorem push_selected_exact_refs (m : ViewSectionRanges) (vid : Nat) (text : PyStr)
    (sel : List Nat) (remotes : List PyStr) (i : Nat) (r : PyStr)
    (stored : Region × Region) (hs : dict_get m vid = some stored)
    (hne : resolve_items text sel (slice3 stored) ≠ [])
    (hshape : ∀ item ∈ resolve_items text sel (slice3 stored), 2 ≤ item.length)
    (hr : remotes.get? i = some r) :
    gs_tag_push_run m vid text sel false remotes (Int.ofNat i)
      = Except.ok [Effect.quickPanel remotes, Effect.status START_PUSH_MESSAGE,
          Effect.gitPush r (joinSep ':' ((resolve_items text sel (slice3 stored)).map
            (fun item => "refs/tags/".data ++ item.getD 1 []))),
          Effect.status END_PUSH_MESSAGE] := by
  have hES : (resolve_items text sel (slice3 stored)).isEmpty = false := by
    cases hR : resolve_items text sel (slice3 stored) with
    | nil => exact absurd hR hne
    | cons a t => rfl
  have hRE : remotes.isEmpty = false := isEmpty_false_of_get? remotes i r hr
  have hNeg : ¬ (Int.ofNat i = -1) := by
    intro hEq
    have h0 : 0 ≤ Int.ofNat i := Int.ofNat_nonneg i
    omega
  have hTN : (Int.ofNat i).toNat = i := rfl
  simp only [gs_tag_push_run, Bool.false_eq_true, if_false, hs, pyGet_some, except_bind_ok,
    hRE, on_select_remote, hNeg, if_false, pyIndex, hTN, hr, pyGet_some,
    except_bind_ok, hES, buildRefs_eq _ hne hshape, except_pure]

/-- C1 witness: one selected tag line, one remote; the push call carries the
single refspec `refs/tags/v1.0`. -/
theorem push_selected_exact_refs_witness :
    gs_tag_push_run [(1, (Region.mk 0 16, Region.mk 0 0))] 1 "    aaaaaaa v1.0".data [5]
        false ["origin".data] (Int.ofNat 0)
      = Except.ok [Effect.quickPanel ["origin".data], Effect.status START_PUSH_MESSAGE,
          Effect.gitPush "origin".data
            (joinSep ':' ((resolve_items "    aaaaaaa v1.0".data [5]
                (slice3 (Region.mk 0 16, Region.mk 0 0))).map
              (fun item => "refs/tags/".data ++ item.getD 1 []))),
          Effect.status END_PUSH_MESSAGE] :=
  push_selected_exact_refs [(1, (Region.mk 0 16, Region.mk 0 0))] 1
    "    aaaaaaa v1.0".data [5] ["origin".data] 0 "origin".data
    (Region.mk 0 16, Region.mk 0 0) rfl (by decide) (by decide) rfl

/-- C4 counterexample: with `push_all=false` and an empty resolved selection,
PushSelected is not a no-op like DeleteSelected: on the same (empty) selection
DeleteSelected issues nothing, while PushSelected still shows the remote
quick panel and, once a remote is chosen, still emits the starting/complete
status messages (though indeed no git call). -/
theorem push_empty_selection_cex :
    gs_tag_push_run [(1, (Region.mk 0 0, Region.mk 0 0))] 1 [] [] false
        ["origin".data] 0
      = Except.ok [Effect.quickPanel ["origin".data], Effect.status START_PUSH_MESSAGE,
          Effect.status END_PUSH_MESSAGE] ∧
    gs_tag_delete_run [(1, (Region.mk 0 0, Region.mk 0 0))] 1 [] [] = Except.ok [] :=
  ⟨rfl, rfl⟩

/-- C4 (amended): with `push_all=false` and an empty resolved selection,
PushSelected issues no repository call, but it still prompts for a remote and,
when a remote is chosen, still emits the starting and complete status
messages. -/
theorem push_empty_selection_effects (m : ViewSectionRanges) (vid : Nat) (text : PyStr)
    (sel : List Nat) (remotes : List PyStr) (i : Nat) (r : PyStr)
    (stored : Region × Region) (hs : dict_get m vid = some stored)
    (hempty : resolve_items text sel (slice3 stored) = [])
    (hr : remotes.get? i = some r) :
    gs_tag_push_run m vid text sel false remotes (Int.ofNat i)
      = Except.ok [Effect.quickPanel remotes, Effect.status START_PUSH_MESSAGE,
          Effect.status END_PUSH_MESSAGE] := by
  have hRE : remotes.isEmpty = false := isEmpty_false_of_get? remotes i r hr
  have hNeg : ¬ (Int.ofNat i = -1) := by
    intro hEq
    have h0 : 0 ≤ Int.ofNat i := Int.ofNat_nonneg i
    omega
  have hTN : (Int.ofNat i).toNat = i := rfl
  simp only [gs_tag_push_run, Bool.false_eq_true, if_false, hs, pyGet_some, except_bind_ok,
    hRE, on_select_remote, hNeg, if_false, pyIndex, hTN, hr, pyGet_some,
    except_bind_ok, hempty, List.isEmpty_nil, if_true, except_pure]

/-- C4 witness: empty selection on an empty text, one remote chosen. -/
theorem push_empty_selection_effects_witness :
    gs_tag_push_run [(2, (Region.mk 0 0, Region.mk 0 0))] 2 [] [] false
        ["fork".data] (Int.ofNat 0)
      = Except.ok [Effect.quickPanel ["fork".data], Effect.status START_PUSH_MESSAGE,
          Effect.status END_PUSH_MESSAGE] :=
  push_empty_selection_effects [(2, (Region.mk 0 0, Region.mk 0 0))] 2 [] []
    ["fork".data] 0 "fork".data (Region.mk 0 0, Region.mk 0 0) rfl rfl rfl

theorem remote_fold_txt_cur (gs : List RemoteGroup) :
    ∀ (txt : PyStr) (reg : Region) (cur : Nat),
      (gs.foldl remoteFoldStep (txt, reg, cur)).1 = txt ++ remoteConcat gs ∧
      (gs.foldl remoteFoldStep (txt, reg, cur)).2.2 = cur + (remoteConcat gs).length := by
  induction gs with
  | nil =>
    intro txt reg cur
    simp [remoteConcat]
  | cons g gs ih =>
    intro txt reg cur
    have h := ih (txt ++ remoteBlockText g)
      (Region.mk cur (cur + (remoteBlockText g).length)) (cur + (remoteBlockText g).length)
    simp only [List.foldl_cons, remoteFoldStep] at h ⊢
    refine ⟨?_, ?_⟩
    · rw [h.1, List.append_assoc, remoteConcat]
    · rw [h.2, remoteConcat, List.length_append]
      omega

theorem remote_fold_last (gs : List RemoteGroup) (g : RemoteGroup) (txt : PyStr)
    (reg : Region) (cur : Nat) :
    ((gs ++ [g]).foldl remoteFoldStep (txt, reg, cur)).2.1
      = Region.mk (cur + (remoteConcat gs).length)
          (cur + (remoteConcat gs).length + (remoteBlockText g).length) := by
  rw [List.foldl_append]
  have h := remote_fold_txt_cur gs txt reg cur
  simp only [List.foldl_cons, List.foldl_nil, remoteFoldStep, h.2]

theorem remoteConcat_append (gs : List RemoteGroup) (g : RemoteGroup) :
    remoteConcat (gs ++ [g]) = remoteConcat gs ++ remoteBlockText g := by
  induction gs with
  | nil => simp [remoteConcat]
  | cons g2 gs2 ih => simp [remoteConcat, ih]

theorem remoteBlockText_ne_nil (g : RemoteGroup) : remoteBlockText g ≠ [] := by
  have hd : "\n  REMOTE (".data = '\n' :: "  REMOTE (".data := rfl
  simp [remoteBlockText, REMOTE_TEMPLATE_fmt, hd]

theorem localBlock_ne_nil (loc : List TagEntry) (hne : loc ≠ []) : localBlock loc ≠ [] := by
  have hE : loc.isEmpty = false := by
    cases loc with
    | nil => cases hne rfl
    | cons a t => rfl
  have hd : "\n  LOCAL:\n".data = '\n' :: "  LOCAL:\n".data := rfl
  simp [localBlock, hE, LOCAL_TEMPLATE_fmt, hd]

theorem get_contents_unfold (b r h : PyStr) (tag_list : List TagItem) :
    get_contents b r h tag_list =
      (VIEW_HEADER_TEMPLATE_fmt b r h
         ++ (if (localBlock (sort_tag_entries tag_list).1
                ++ remoteConcat (sort_tag_entries tag_list).2).isEmpty
             then NO_TAGS_MESSAGE
             else localBlock (sort_tag_entries tag_list).1
                ++ remoteConcat (sort_tag_entries tag_list).2)
         ++ KEY_BINDINGS_MENU,
       (if (sort_tag_entries tag_list).1.isEmpty then Region.mk 0 0
        else Region.mk (VIEW_HEADER_TEMPLATE_fmt b r h).length
          ((VIEW_HEADER_TEMPLATE_fmt b r h).length
            + (localBlock (sort_tag_entries tag_list).1).length),
        ((sort_tag_entries tag_list).2.foldl remoteFoldStep
          ([], Region.mk 0 0,
           (VIEW_HEADER_TEMPLATE_fmt b r h).length
             + (localBlock (sort_tag_entries tag_list).1).length)).2.1)) := by
  simp only [get_contents]
  rw [(remote_fold_txt_cur (sort_tag_entries tag_list).2 [] (Region.mk 0 0)
    ((VIEW_HEADER_TEMPLATE_fmt b r h).length
      + (localBlock (sort_tag_entries tag_list).1).length)).1, List.nil_append]

theorem local_region_eq_nil (b r h : PyStr) (tl : List TagItem)
    (hl : (sort_tag_entries tl).1 = []) :
    (get_contents b r h tl).2.1 = Region.mk 0 0 := by
  simp [get_contents_unfold, hl]

theorem local_region_eq (b r h : PyStr) (tl : List TagItem)
    (hl : (sort_tag_entries tl).1 ≠ []) :
    (get_contents b r h tl).2.1
      = Region.mk (VIEW_HEADER_TEMPLATE_fmt b r h).length
          ((VIEW_HEADER_TEMPLATE_fmt b r h).length
            + (localBlock (sort_tag_entries tl).1).length) := by
  have hE : (sort_tag_entries tl).1.isEmpty = false := by
    cases hc : (sort_tag_entries tl).1 with
    | nil => cases hl hc
    | cons a t => rfl
  simp [get_contents_unfold, hE]

theorem remote_region_eq_nil (b r h : PyStr) (tl : List TagItem)
    (hr : (sort_tag_entries tl).2 = []) :
    (get_contents b r h tl).2.2 = Region.mk 0 0 := by
  simp [get_contents_unfold, hr]

theorem remote_region_eq_last (b r h : PyStr) (tl : List TagItem)
    (gs : List RemoteGroup) (g : RemoteGroup)
    (hr : (sort_tag_entries tl).2 = gs ++ [g]) :
    (get_contents b r h tl).2.2
      = Region.mk ((VIEW_HEADER_TEMPLATE_fmt b r h).length
            + (localBlock (sort_tag_entries tl).1).length + (remoteConcat gs).length)
          ((VIEW_HEADER_TEMPLATE_fmt b r h).length
            + (localBlock (sort_tag_entries tl).1).length + (remoteConcat gs).length
            + (remoteBlockText g).length) := by
  rw [get_contents_unfold]
  show ((sort_tag_entries tl).2.foldl remoteFoldStep _).2.1 = _
  rw [hr, remote_fold_last]

theorem text_length_ge (b r h : PyStr) (tl : List TagItem) :
    (VIEW_HEADER_TEMPLATE_fmt b r h).length
      + (localBlock (sort_tag_entries tl).1).length
      + (remoteConcat (sort_tag_entries tl).2).length
      ≤ (get_contents b r h tl).1.length := by
  rw [get_contents_unfold]
  dsimp only
  by_cases he : (localBlock (sort_tag_entries tl).1
      ++ remoteConcat (sort_tag_entries tl).2).isEmpty
  · have h3 := List.append_eq_nil.mp (List.isEmpty_iff.mp he)
    rw [if_pos he]
    simp [List.length_append, h3.1, h3.2]
  · rw [if_neg he]
    simp only [List.length_append]
    omega

/-! ## C5 and C7 (recorded section ranges) -/

/-- C5 counterexample: with two remote groups the renderer does not record one
range per emitted block.  Only a single `remote_region` variable exists and
the loop overwrites it, so the recorded pair is `(local, last_remote)`: here
`((0,0), (75,108))`, and no recorded range covers the first remote block's tag
line (offsets 60–74). -/
theorem section_ranges_per_block_cex :
    (let cr := get_contents "b".data "r".data "h".data
        [TagItem.group ⟨"origin".data, [⟨"aaaaaaa".data, "va".data⟩]⟩,
         TagItem.group ⟨"fork".data, [⟨"bbbbbbb".data, "vb".data⟩]⟩]
     cr.2 = (Region.mk 0 0, Region.mk 75 108) ∧
     ¬ ∃ rg ∈ slice3 cr.2, rg.a ≤ 60 ∧ 74 ≤ rg.b) := by
  exact ⟨by decide, by decide⟩

/-- C5 (amended): the renderer records exactly two ranges.  The first covers
the local block (and is the empty `(0,0)` range, without advancing the cursor,
when the local block is omitted); the second is overwritten on every loop
iteration and therefore covers only the *last* remote block (and is `(0,0)`
when there are no remote groups).  Intermediate remote blocks advance the
cursor but leave no recorded range. -/
theorem section_ranges_recorded (b r h : PyStr) (tag_list : List TagItem) :
    ((sort_tag_entries tag_list).1 = [] → (get_contents b r h tag_list).2.1 = Region.mk 0 0) ∧
    ((sort_tag_entries tag_list).1 ≠ [] → (get_contents b r h tag_list).2.1
        = Region.mk (VIEW_HEADER_TEMPLATE_fmt b r h).length
            ((VIEW_HEADER_TEMPLATE_fmt b r h).length
              + (localBlock (sort_tag_entries tag_list).1).length)) ∧
    ((sort_tag_entries tag_list).2 = [] → (get_contents b r h tag_list).2.2 = Region.mk 0 0) ∧
    (∀ gs g, (sort_tag_entries tag_list).2 = gs ++ [g] →
      (get_contents b r h tag_list).2.2
        = Region.mk ((VIEW_HEADER_TEMPLATE_fmt b r h).length
              + (localBlock (sort_tag_entries tag_list).1).length + (remoteConcat gs).length)
            ((VIEW_HEADER_TEMPLATE_fmt b r h).length
              + (localBlock (sort_tag_entries tag_list).1).length + (remoteConcat gs).length
              + (remoteBlockText g).length)) :=
  ⟨local_region_eq_nil b r h tag_list,
   local_region_eq b r h tag_list,
   remote_region_eq_nil b r h tag_list,
   fun gs g hgs => remote_region_eq_last b r h tag_list gs g hgs⟩

/-- C5 witness: the fourth arm of `section_ranges_recorded` applied to a
two-remote-group input; the recorded remote range is the last block's span. -/
theorem section_ranges_recorded_witness :
    (get_contents "b".data "r".data "h".data
        [TagItem.group ⟨"origin".data, [⟨"aaaaaaa".data, "va".data⟩]⟩,
         TagItem.group ⟨"fork".data, [⟨"bbbbbbb".data, "vb".data⟩]⟩]).2.2
      = Region.mk ((VIEW_HEADER_TEMPLATE_fmt "b".data "r".data "h".data).length
            + (localBlock (sort_tag_entries
                [TagItem.group ⟨"origin".data, [⟨"aaaaaaa".data, "va".data⟩]⟩,
                 TagItem.group ⟨"fork".data, [⟨"bbbbbbb".data, "vb".data⟩]⟩]).1).length
            + (remoteConcat [⟨"origin".data, [⟨"aaaaaaa".data, "va".data⟩]⟩]).length)
          ((VIEW_HEADER_TEMPLATE_fmt "b".data "r".data "h".data).length
            + (localBlock (sort_tag_entries
                [TagItem.group ⟨"origin".data, [⟨"aaaaaaa".data, "va".data⟩]⟩,
                 TagItem.group ⟨"fork".data, [⟨"bbbbbbb".data, "vb".data⟩]⟩]).1).length
            + (remoteConcat [⟨"origin".data, [⟨"aaaaaaa".data, "va".data⟩]⟩]).length
            + (remoteBlockText ⟨"fork".data, [⟨"bbbbbbb".data, "vb".data⟩]⟩).length) :=
  (section_ranges_recorded "b".data "r".data "h".data
      [TagItem.group ⟨"origin".data, [⟨"aaaaaaa".data, "va".data⟩]⟩,
       TagItem.group ⟨"fork".data, [⟨"bbbbbbb".data, "vb".data⟩]⟩]).2.2.2
    [⟨"origin".data, [⟨"aaaaaaa".data, "va".data⟩]⟩]
    ⟨"fork".data, [⟨"bbbbbbb".data, "vb".data⟩]⟩ rfl

/-- C7: for every non-empty tag list, the two recorded section ranges are
pairwise non-overlapping and each lies within the bounds of the returned
report text. -/
theorem section_ranges_disjoint_bounded (b r h : PyStr) (tag_list : List TagItem)
    (hne : tag_list ≠ []) :
    ¬ overlaps (get_contents b r h tag_list).2.1 (get_contents b r h tag_list).2.2 ∧
    (get_contents b r h tag_list).2.1.a ≤ (get_contents b r h tag_list).2.1.b ∧
    (get_contents b r h tag_list).2.1.b ≤ (get_contents b r h tag_list).1.length ∧
    (get_contents b r h tag_list).2.2.a ≤ (get_contents b r h tag_list).2.2.b ∧
    (get_contents b r h tag_list).2.2.b ≤ (get_contents b r h tag_list).1.length := by
  have hlen := text_length_ge b r h tag_list
  have hr1 : (get_contents b r h tag_list).2.1 = Region.mk 0 0 ∨
      (get_contents b r h tag_list).2.1
        = Region.mk (VIEW_HEADER_TEMPLATE_fmt b r h).length
            ((VIEW_HEADER_TEMPLATE_fmt b r h).length
              + (localBlock (sort_tag_entries tag_list).1).length) := by
    by_cases hl : (sort_tag_entries tag_list).1 = []
    · exact Or.inl (local_region_eq_nil b r h tag_list hl)
    · exact Or.inr (local_region_eq b r h tag_list hl)
  obtain hrem | ⟨gs, g, hgs⟩ := (sort_tag_entries tag_list).2.eq_nil_or_concat
  · have hr2 := remote_region_eq_nil b r h tag_list hrem
    rw [hrem] at hlen
    simp only [remoteConcat, List.length_nil] at hlen
    obtain h1 | h1 := hr1 <;>
      rw [h1, hr2] <;>
      simp only [overlaps, Region.mk.injEq] <;>
      refine ⟨?_, ?_, ?_, ?_, ?_⟩ <;> dsimp only <;> omega
  · rw [List.concat_eq_append] at hgs
    have hr2 := remote_region_eq_last b r h tag_list gs g hgs
    rw [hgs, remoteConcat_append, List.length_append] at hlen
    obtain h1 | h1 := hr1 <;>
      rw [h1, hr2] <;>
      simp only [overlaps, Region.mk.injEq] <;>
      refine ⟨?_, ?_, ?_, ?_, ?_⟩ <;> dsimp only <;> omega

/-- C7 witness: the non-emptiness hypothesis and the conclusion at a concrete
one-local-tag input. -/
theorem section_ranges_disjoint_bounded_witness :
    ([TagItem.loc ⟨"aaaaaaa".data, "v1.0".data⟩] : List TagItem) ≠ [] ∧
    (¬ overlaps (get_contents "b".data "r".data "h".data
          [TagItem.loc ⟨"aaaaaaa".data, "v1.0".data⟩]).2.1
        (get_contents "b".data "r".data "h".data
          [TagItem.loc ⟨"aaaaaaa".data, "v1.0".data⟩]).2.2 ∧
     (get_contents "b".data "r".data "h".data
          [TagItem.loc ⟨"aaaaaaa".data, "v1.0".data⟩]).2.1.a
        ≤ (get_contents "b".data "r".data "h".data
          [TagItem.loc ⟨"aaaaaaa".data, "v1.0".data⟩]).2.1.b ∧
     (get_contents "b".data "r".data "h".data
          [TagItem.loc ⟨"aaaaaaa".data, "v1.0".data⟩]).2.1.b
        ≤ (get_contents "b".data "r".data "h".data
          [TagItem.loc ⟨"aaaaaaa".data, "v1.0".data⟩]).1.length ∧
     (get_contents "b".data "r".data "h".data
          [TagItem.loc ⟨"aaaaaaa".data, "v1.0".data⟩]).2.2.a
        ≤ (get_contents "b".data "r".data "h".data
          [TagItem.loc ⟨"aaaaaaa".data, "v1.0".data⟩]).2.2.b ∧
     (get_contents "b".data "r".data "h".data
          [TagItem.loc ⟨"aaaaaaa".data, "v1.0".data⟩]).2.2.b
        ≤ (get_contents "b".data "r".data "h".data
          [TagItem.loc ⟨"aaaaaaa".data, "v1.0".data⟩]).1.length) :=
  ⟨by decide, section_ranges_disjoint_bounded "b".data "r".data "h".data
    [TagItem.loc ⟨"aaaaaaa".data, "v1.0".data⟩] (by decide)⟩

/-! ## Line/span lemmas for the selection round trip (C2) -/

theorem splitLines_ne_nil (cs : PyStr) : splitLines cs ≠ [] := by
  induction cs with
  | nil => simp [splitLines]
  | cons c cs ih =>
    by_cases hc : c = '\n'
    · simp [splitLines, hc]
    · simp only [splitLines, hc, if_false]
      cases hs : splitLines cs with
      | nil => simp
      | cons l ls => simp

theorem splitLines_cons_ne (c : Char) (cs : PyStr) (hc : ¬ c = '\n') (l0 : PyStr)
    (ls : List PyStr) (h : splitLines cs = l0 :: ls) :
    splitLines (c :: cs) = (c :: l0) :: ls := by
  simp [splitLines, hc, h]

theorem splitLines_append (xs : PyStr) (hx : '\n' ∉ xs) :
    ∀ ys, splitLines (xs ++ '\n' :: ys) = xs :: splitLines ys := by
  induction xs with
  | nil =>
    intro ys
    simp [splitLines]
  | cons c cs ih =>
    intro ys
    have hc : ¬ c = '\n' := fun h => hx (by simp [h])
    have h2 := ih (fun h => hx (List.mem_cons_of_mem _ h)) ys
    rw [List.cons_append]
    exact splitLines_cons_ne c _ hc cs (splitLines ys) h2

theorem splitLines_head_le (rest : PyStr) :
    ∀ (P : PyStr) (l0 : PyStr) (ls : List PyStr),
      splitLines (P ++ '\n' :: rest) = l0 :: ls → l0.length ≤ P.length := by
  intro P
  induction P with
  | nil =>
    intro l0 ls h
    have h0 : l0 = [] := by
      simp [splitLines] at h
      exact h.1
    simp [h0]
  | cons c P ih =>
    intro l0 ls h
    by_cases hc : c = '\n'
    · subst hc
      rw [List.cons_append] at h
      have h0 : l0 = [] := by
        simp [splitLines] at h
        exact h.1
      simp [h0]
    · cases hsp : splitLines (P ++ '\n' :: rest) with
      | nil => exact absurd hsp (splitLines_ne_nil _)
      | cons l0' ls' =>
        rw [List.cons_append, splitLines_cons_ne c _ hc l0' ls' hsp] at h
        injection h with h1 h2
        have h3 := ih l0' ls' hsp
        rw [← h1]
        simp only [List.length_cons]
        omega

theorem keptLines_cons (l : PyStr) (s e : Nat) (rest : List (PyStr × Nat × Nat))
    (sel : List Nat) (ranges : List Region) :
    keptLines ((l, s, e) :: rest) sel ranges
      = if ((sel.any fun p => decide (s ≤ p) && decide (p ≤ e)) &&
            (ranges.any fun rg => decide (rg.a ≤ s) && decide (e ≤ rg.b))) = true
        then l :: keptLines rest sel ranges
        else keptLines rest sel ranges := by
  simp only [keptLines, List.filterMap_cons]
  by_cases hcond : ((sel.any fun p => decide (s ≤ p) && decide (p ≤ e)) &&
      (ranges.any fun rg => decide (rg.a ≤ s) && decide (e ≤ rg.b))) = true
  · rw [if_pos hcond, if_pos hcond]
  · rw [if_neg hcond, if_neg hcond]

theorem keptLines_nil_of_lt (ls : List PyStr) :
    ∀ (off : Nat) (sel : List Nat) (ranges : List Region),
      (∀ p ∈ sel, p < off) → keptLines (spansAux off ls) sel ranges = [] := by
  induction ls with
  | nil => intro off sel ranges _; rfl
  | cons l ls ih =>
    intro off sel ranges hp
    rw [spansAux, keptLines_cons]
    have hsel : (sel.any fun p => decide (off ≤ p) && decide (p ≤ off + l.length)) = false := by
      rw [List.any_eq_false]
      intro p hpm
      have := hp p hpm
      simp only [Bool.and_eq_true, decide_eq_true_eq, not_and]
      omega
    rw [hsel, Bool.false_and, if_neg (by simp)]
    exact ih (off + l.length + 1) sel ranges (fun p hp2 => by have := hp p hp2; omega)

theorem keptLines_decomp (M S : PyStr) (hM : '\n' ∉ M) :
    ∀ (P : PyStr) (off k : Nat) (ranges : List Region),
      k ≤ M.length →
      (ranges.any fun rg => decide (rg.a ≤ off + P.length + 1) &&
        decide (off + P.length + 1 + M.length ≤ rg.b)) = true →
      keptLines (spansAux off (splitLines (P ++ '\n' :: (M ++ '\n' :: S))))
        [off + P.length + 1 + k] ranges = [M] := by
  intro P
  induction P with
  | nil =>
    intro off k ranges hk hr
    simp only [List.length_nil, Nat.add_zero, List.nil_append] at hr ⊢
    have h1 : splitLines ('\n' :: (M ++ '\n' :: S)) = [] :: M :: splitLines S := by
      have h2 : splitLines ('\n' :: (M ++ '\n' :: S))
          = [] :: splitLines (M ++ '\n' :: S) := by
        simp [splitLines]
      rw [h2, splitLines_append M hM S]
    rw [h1, spansAux, spansAux, keptLines_cons]
    simp only [List.length_nil, Nat.add_zero]
    have c1 : (([off + 1 + k] : List Nat).any fun p =>
        decide (off ≤ p) && decide (p ≤ off)) = false := by
      simp
      omega
    rw [c1, Bool.false_and, if_neg (by simp), keptLines_cons]
    have c2 : (([off + 1 + k] : List Nat).any fun p =>
        decide (off + 1 ≤ p) && decide (p ≤ off + 1 + M.length)) = true := by
      simp
      omega
    rw [c2, hr, if_pos (show (true && true) = true from rfl)]
    rw [keptLines_nil_of_lt (splitLines S) (off + 1 + M.length + 1) [off + 1 + k] ranges
      (by intro p hp; simp at hp; omega)]
  | cons c P ih =>
    intro off k ranges hk hr
    by_cases hc : c = '\n'
    · subst hc
      have h1 : splitLines (('\n' :: P) ++ '\n' :: (M ++ '\n' :: S))
          = [] :: splitLines (P ++ '\n' :: (M ++ '\n' :: S)) := by
        rw [List.cons_append]
        simp [splitLines]
    --  the blank line contributed by the leading newline is never selected
      rw [h1, spansAux, keptLines_cons]
      simp only [List.length_nil, Nat.add_zero, List.length_cons] at hr ⊢
      have c1 : (([off + (P.length + 1) + 1 + k] : List Nat).any fun p =>
          decide (off ≤ p) && decide (p ≤ off)) = false := by
        simp
        omega
      rw [c1, Bool.false_and, if_neg (by simp)]
      have e2 : off + (P.length + 1) + 1 = off + 1 + P.length + 1 := by omega
      simp only [e2] at hr ⊢
      exact ih (off + 1) k ranges hk hr
    · obtain ⟨l0, ls, hsp⟩ : ∃ l0 ls,
          splitLines (P ++ '\n' :: (M ++ '\n' :: S)) = l0 :: ls := by
        cases hx : splitLines (P ++ '\n' :: (M ++ '\n' :: S)) with
        | nil => exact absurd hx (splitLines_ne_nil _)
        | cons a t => exact ⟨a, t, rfl⟩
      have hl0 : l0.length ≤ P.length := splitLines_head_le _ P l0 ls hsp
      have h1 : splitLines ((c :: P) ++ '\n' :: (M ++ '\n' :: S)) = (c :: l0) :: ls := by
        rw [List.cons_append]
        exact splitLines_cons_ne c _ hc l0 ls hsp
      rw [h1, spansAux, keptLines_cons]
      simp only [List.length_cons] at hr ⊢
      have c1 : (([off + (P.length + 1) + 1 + k] : List Nat).any fun p =>
          decide (off ≤ p) && decide (p ≤ off + (l0.length + 1))) = false := by
        simp
        omega
      rw [c1, Bool.false_and, if_neg (by simp)]
      have e2 : off + (P.length + 1) + 1 = off + 1 + P.length + 1 := by omega
      simp only [e2] at hr ⊢
      have hih := ih (off + 1) k ranges hk hr
      rw [hsp, spansAux, keptLines_cons] at hih
      have c2 : (([off + 1 + P.length + 1 + k] : List Nat).any fun p =>
          decide (off + 1 ≤ p) && decide (p ≤ off + 1 + l0.length)) = false := by
        simp
        omega
      rw [c2, Bool.false_and, if_neg (by simp)] at hih
      have e3 : off + (l0.length + 1) + 1 = off + 1 + l0.length + 1 := by omega
      simp only [e3]
      exact hih

theorem joinSep_cons_ne (sep : Char) (x : PyStr) (l : List PyStr) (h : l ≠ []) :
    joinSep sep (x :: l) = x ++ sep :: joinSep sep l := by
  cases l with
  | nil => cases h rfl
  | cons y ys => rfl

theorem joinSep_decomp (y : PyStr) (ys : List PyStr) (Z : PyStr) :
    ∀ (xs : List PyStr), ∃ (pre suf0 : PyStr),
      '\n' :: (joinSep '\n' (xs ++ y :: ys) ++ '\n' :: Z)
        = pre ++ '\n' :: (y ++ '\n' :: (suf0 ++ Z)) ∧
      pre.length = ((xs.map (fun l => l.length + 1)).sum) := by
  intro xs
  induction xs with
  | nil =>
    cases ys with
    | nil =>
      refine ⟨[], [], ?_, ?_⟩ <;> simp [joinSep]
    | cons y2 ys2 =>
      refine ⟨[], joinSep '\n' (y2 :: ys2) ++ ['\n'], ?_, ?_⟩
      · rw [List.nil_append, joinSep_cons_ne '\n' y (y2 :: ys2) (by simp)]
        simp [List.append_assoc]
      · simp
  | cons x xs ih =>
    obtain ⟨pre, suf0, heq, hlen⟩ := ih
    refine ⟨'\n' :: x ++ pre, suf0, ?_, ?_⟩
    · rw [List.cons_append, joinSep_cons_ne '\n' x (xs ++ y :: ys) (by simp)]
      have : ('\n' :: (x ++ '\n' :: joinSep '\n' (xs ++ y :: ys) ++ '\n' :: Z) : PyStr)
          = '\n' :: x ++ ('\n' :: (joinSep '\n' (xs ++ y :: ys) ++ '\n' :: Z)) := by
        simp [List.append_assoc]
      rw [this, heq]
      simp [List.append_assoc]
    · simp only [List.length_append, List.length_cons, List.map_cons, List.sum_cons, hlen]

theorem pySplitAux_word (w : PyStr) (hw : ∀ c ∈ w, c.isWhitespace = false) :
    ∀ (cur rest : PyStr), pySplitAux cur (w ++ rest) = pySplitAux (w.reverse ++ cur) rest := by
  induction w with
  | nil =>
    intro cur rest
    simp
  | cons c cs ih =>
    intro cur rest
    have hc : c.isWhitespace = false := hw c (by simp)
    rw [List.cons_append]
    show (if c.isWhitespace = true then _ else pySplitAux (c :: cur) (cs ++ rest)) = _
    rw [hc]
    simp only [Bool.false_eq_true, if_false]
    rw [ih (fun d hd => hw d (by simp [hd])) (c :: cur) rest]
    simp [List.append_assoc]

theorem pySplitAux_end (cur : PyStr) : pySplitAux cur [] =
    if cur.isEmpty then [] else [cur.reverse] := rfl

theorem pySplit_word (w : PyStr) (h : isWord w) : pySplit w = [w] := by
  obtain ⟨hne, hws⟩ := h
  unfold pySplit
  have h2 := pySplitAux_word w hws [] []
  rw [List.append_nil] at h2
  rw [h2, List.append_nil, pySplitAux_end]
  have hE : w.reverse.isEmpty = false := by
    cases hr : w.reverse with
    | nil => exact absurd (List.reverse_eq_nil_iff.mp hr) hne
    | cons d ds => rfl
  rw [hE]
  simp

theorem pySplit_two_words (w1 w2 : PyStr) (h1 : isWord w1) (h2 : isWord w2) :
    pySplit (w1 ++ ' ' :: w2) = [w1, w2] := by
  unfold pySplit
  rw [pySplitAux_word w1 h1.2 [] (' ' :: w2), List.append_nil]
  show (if (' ').isWhitespace = true then
          (if w1.reverse.isEmpty then pySplitAux [] w2 else w1.reverse.reverse :: pySplitAux [] w2)
        else _) = _
  rw [if_pos (by decide)]
  have hE : w1.reverse.isEmpty = false := by
    cases hr : w1.reverse with
    | nil => exact absurd (List.reverse_eq_nil_iff.mp hr) h1.1
    | cons d ds => rfl
  rw [hE]
  simp only [Bool.false_eq_true, if_false, List.reverse_reverse]
  have h3 : pySplitAux [] w2 = pySplit w2 := rfl
  rw [h3, pySplit_word w2 h2]

theorem pyStrip_of_ends (xs : PyStr)
    (hhead : ∃ c cs, xs = c :: cs ∧ c.isWhitespace = false)
    (hlast : ∃ d ds, xs.reverse = d :: ds ∧ d.isWhitespace = false) :
    pyStrip xs = xs := by
  obtain ⟨c, cs, hx, hc⟩ := hhead
  obtain ⟨d, ds, hr, hd⟩ := hlast
  unfold pyStrip
  have s1 : xs.dropWhile Char.isWhitespace = xs := by
    rw [hx, List.dropWhile_cons, hc]
    simp
  have s2 : xs.reverse.dropWhile Char.isWhitespace = xs.reverse := by
    rw [hr, List.dropWhile_cons, hd]
    simp
  rw [s1, s2, List.reverse_reverse]

theorem parse_tagLine (t : TagEntry) (hsha : isWord (t.sha.take 7)) (htag : isWord t.tag) :
    parse_line (tagLine t) = [t.sha.take 7, t.tag] := by
  have h4 : (tagLine t).drop 4 = t.sha.take 7 ++ ' ' :: t.tag := by
    show (("    ".data ++ t.sha.take 7 ++ " ".data ++ t.tag : PyStr)).drop 4 = _
    have e1 : ("    ".data ++ t.sha.take 7 ++ " ".data ++ t.tag : PyStr)
        = "    ".data ++ (t.sha.take 7 ++ ' ' :: t.tag) := by
      simp [List.append_assoc]
    rw [e1]
    have e2 : (4 : Nat) = ("    ".data : PyStr).length := rfl
    rw [e2, List.drop_left]
  unfold parse_line
  rw [h4]
  have hstrip : pyStrip (t.sha.take 7 ++ ' ' :: t.tag) = t.sha.take 7 ++ ' ' :: t.tag := by
    apply pyStrip_of_ends
    · obtain ⟨c, cs, hc⟩ : ∃ c cs, t.sha.take 7 = c :: cs := by
        cases hx : t.sha.take 7 with
        | nil => exact absurd hx hsha.1
        | cons c cs => exact ⟨c, cs, rfl⟩
      refine ⟨c, cs ++ ' ' :: t.tag, ?_, ?_⟩
      · rw [hc, List.cons_append]
      · exact hsha.2 c (by rw [hc]; simp)
    · obtain ⟨d, ds, hd⟩ : ∃ d ds, t.tag.reverse = d :: ds := by
        cases hx : t.tag.reverse with
        | nil => exact absurd (List.reverse_eq_nil_iff.mp hx) htag.1
        | cons d ds => exact ⟨d, ds, rfl⟩
      refine ⟨d, ds ++ ' ' :: (t.sha.take 7).reverse, ?_, ?_⟩
      · rw [List.reverse_append, List.reverse_cons, hd]
        simp [List.append_assoc]
      · exact htag.2 d (by
          have : d ∈ t.tag.reverse := by rw [hd]; simp
          exact List.mem_reverse.mp this)
  rw [hstrip, pySplit_two_words (t.sha.take 7) t.tag hsha htag]

theorem newline_not_mem_tagLine (t : TagEntry) (hsha : isWord (t.sha.take 7))
    (htag : isWord t.tag) : '\n' ∉ tagLine t := by
  intro hmem
  have hws : ('\n').isWhitespace = true := by decide
  unfold tagLine at hmem
  simp only [List.mem_append] at hmem
  rcases hmem with ((h1 | h2) | h3) | h4
  · exact absurd h1 (by decide)
  · rw [hsha.2 '\n' h2] at hws
    cases hws
  · exact absurd h3 (by decide)
  · rw [htag.2 '\n' h4] at hws
    cases hws

theorem sort_tag_entries_eq (L : List TagEntry) (G : List RemoteGroup) :
    sort_tag_entries (L.map TagItem.loc ++ G.map TagItem.group) = (L, G) := by
  induction L with
  | nil =>
    induction G with
    | nil => rfl
    | cons g gs ihg =>
      simp only [List.map_nil, List.nil_append, List.map_cons] at ihg ⊢
      rw [sort_tag_entries, ihg]
  | cons e L ihl =>
    simp only [List.map_cons, List.cons_append] at ihl ⊢
    rw [sort_tag_entries, ihl]

/-! ## C2 (render/resolve round trip) -/

/-- C2 counterexample: the round trip fails for an entry rendered in a remote
block that is not the last one.  With two remote groups, only the last remote
block's range is recorded (see the C5 analysis), so an offset inside the first
remote block's tag line (offset 62, inside `"    aaaaaaa va"` at offsets
60–74) resolves to the empty sequence instead of `("aaaaaaa", "va")`. -/
theorem resolve_render_round_trip_cex :
    (let cr := get_contents "b".data "r".data "h".data
        [TagItem.group ⟨"origin".data, [⟨"aaaaaaa".data, "va".data⟩]⟩,
         TagItem.group ⟨"fork".data, [⟨"bbbbbbb".data, "vb".data⟩]⟩]
     resolve_items cr.1 [62] (slice3 cr.2) = [] ∧
     ([] : List (List PyStr)) ≠ [["aaaaaaa".data, "va".data]]) := by
  exact ⟨rfl, by decide⟩

/-- Round trip in the local block: for every tag entry with a whitespace-free,
non-empty name and short hash, rendered anywhere in the local block, resolving
any offset inside that entry's line yields exactly the reference
`(sha[:7], name)`. -/
theorem local_block_round_trip (b r h : PyStr) (l1 l2 : List TagEntry) (t : TagEntry)
    (gs : List RemoteGroup) (k : Nat)
    (hsha : isWord (t.sha.take 7)) (htag : isWord t.tag)
    (hk : k < (tagLine t).length) :
    resolve_items
      (get_contents b r h ((l1 ++ t :: l2).map TagItem.loc ++ gs.map TagItem.group)).1
      [localLineStart b r h l1 + k]
      (slice3 (get_contents b r h ((l1 ++ t :: l2).map TagItem.loc ++ gs.map TagItem.group)).2)
      = [[t.sha.take 7, t.tag]] := by
  have hsort := sort_tag_entries_eq (l1 ++ t :: l2) gs
  have hM : '\n' ∉ tagLine t := newline_not_mem_tagLine t hsha htag
  obtain ⟨pre, suf0, hJ, hpre⟩ :=
    joinSep_decomp (tagLine t) (l2.map tagLine)
      (remoteConcat gs ++ KEY_BINDINGS_MENU) (l1.map tagLine)
  have hmap : (l1 ++ t :: l2).map tagLine
      = l1.map tagLine ++ tagLine t :: l2.map tagLine := by
    simp
  have hEm : ((l1 ++ t :: l2) : List TagEntry).isEmpty = false := by
    cases l1 <;> rfl
  have hLB : localBlock (l1 ++ t :: l2)
      = "\n  LOCAL:\n".data ++ joinSep '\n' ((l1 ++ t :: l2).map tagLine) ++ "\n".data := by
    simp [localBlock, hEm, LOCAL_TEMPLATE_fmt]
  have hLBne : (localBlock (l1 ++ t :: l2) ++ remoteConcat gs).isEmpty = false := by
    rw [hLB]
    rfl
  have htext : (get_contents b r h
        ((l1 ++ t :: l2).map TagItem.loc ++ gs.map TagItem.group)).1
      = ((VIEW_HEADER_TEMPLATE_fmt b r h ++ "\n  LOCAL:".data) ++ pre)
        ++ '\n' :: (tagLine t ++ '\n' :: (suf0 ++ (remoteConcat gs ++ KEY_BINDINGS_MENU))) := by
    rw [get_contents_unfold]
    dsimp only
    rw [hsort]
    dsimp only
    simp only [hLBne, Bool.false_eq_true, if_false]
    rw [hLB, hmap]
    have e1 : ("\n  LOCAL:\n".data : PyStr) = "\n  LOCAL:".data ++ ['\n'] := rfl
    have e2 : ("\n".data : PyStr) = ['\n'] := rfl
    rw [e1, e2]
    simp only [List.append_assoc, List.singleton_append]
    rw [← hJ]
    simp only [List.cons_append, List.append_assoc]
  have h9 : (("\n  LOCAL:".data : PyStr)).length = 9 := rfl
  have hplen : (((VIEW_HEADER_TEMPLATE_fmt b r h ++ "\n  LOCAL:".data) ++ pre)).length
      = (VIEW_HEADER_TEMPLATE_fmt b r h).length + 9 + pre.length := by
    simp only [List.length_append, h9]
  have hsum : pre.length = (l1.map (fun e => (tagLine e).length + 1)).sum := by
    rw [hpre, List.map_map]
    rfl
  have hσ : localLineStart b r h l1 + k
      = 0 + (((VIEW_HEADER_TEMPLATE_fmt b r h ++ "\n  LOCAL:".data) ++ pre)).length
          + 1 + k := by
    rw [hplen]
    simp only [localLineStart]
    rw [← hsum]
    omega
  have hR1 := local_region_eq b r h
    ((l1 ++ t :: l2).map TagItem.loc ++ gs.map TagItem.group) (by rw [hsort]; simp)
  rw [hsort] at hR1
  dsimp only at hR1
  have hJlen := congrArg List.length hJ
  simp only [List.length_cons, List.length_append] at hJlen
  have hLBlen : (localBlock (l1 ++ t :: l2)).length
      = 10 + ((joinSep '\n' (l1.map tagLine ++ tagLine t :: l2.map tagLine)).length + 1) := by
    rw [hLB, hmap]
    simp only [List.length_append]
    have e10 : (("\n  LOCAL:\n".data : PyStr)).length = 10 := rfl
    have e1 : (("\n".data : PyStr)).length = 1 := rfl
    rw [e10, e1]
    omega
  have hrange : ((slice3 (get_contents b r h
        ((l1 ++ t :: l2).map TagItem.loc ++ gs.map TagItem.group)).2).any fun rg =>
      decide (rg.a ≤ 0 + (((VIEW_HEADER_TEMPLATE_fmt b r h ++ "\n  LOCAL:".data) ++ pre)).length + 1) &&
      decide (0 + (((VIEW_HEADER_TEMPLATE_fmt b r h ++ "\n  LOCAL:".data) ++ pre)).length + 1
        + (tagLine t).length ≤ rg.b)) = true := by
    simp only [slice3, List.any_cons, List.any_nil, Bool.or_eq_true, Bool.and_eq_true,
      decide_eq_true_eq]
    refine Or.inl ⟨?_, ?_⟩
    · rw [hR1]
      dsimp only
      rw [hplen]
      omega
    · rw [hR1]
      dsimp only
      rw [hplen, hLBlen]
      omega
  simp only [resolve_items, get_lines_from_regions]
  rw [hσ, htext]
  rw [keptLines_decomp (tagLine t)
    (suf0 ++ (remoteConcat gs ++ KEY_BINDINGS_MENU)) hM
    ((VIEW_HEADER_TEMPLATE_fmt b r h ++ "\n  LOCAL:".data) ++ pre) 0 k
    (slice3 (get_contents b r h
      ((l1 ++ t :: l2).map TagItem.loc ++ gs.map TagItem.group)).2)
    (Nat.le_of_lt hk) hrange]
  have hnem : (tagLine t).isEmpty = false := rfl
  simp only [List.filter, hnem, Bool.not_false, List.map_cons, List.map_nil]
  rw [parse_tagLine t hsha htag]


/-- Round trip in the last remote block: for every tag entry with a
whitespace-free, non-empty name and short hash, rendered anywhere in the last
remote group's block (the one block the overwritten `remote_region` covers),
resolving any offset inside that entry's line yields exactly the reference
`(sha[:7], name)`. -/
theorem remote_block_round_trip (b r h : PyStr) (L : List TagEntry)
    (gs : List RemoteGroup) (rname : PyStr) (e1 e2 : List TagEntry) (t : TagEntry)
    (k : Nat)
    (hsha : isWord (t.sha.take 7)) (htag : isWord t.tag)
    (hk : k < (tagLine t).length) :
    resolve_items
      (get_contents b r h (L.map TagItem.loc
        ++ (gs ++ [(RemoteGroup.mk rname (e1 ++ t :: e2))]).map TagItem.group)).1
      [remoteLineStart b r h L gs rname e1 + k]
      (slice3 (get_contents b r h (L.map TagItem.loc
        ++ (gs ++ [(RemoteGroup.mk rname (e1 ++ t :: e2))]).map TagItem.group)).2)
      = [[t.sha.take 7, t.tag]] := by
  have hsort := sort_tag_entries_eq L (gs ++ [(RemoteGroup.mk rname (e1 ++ t :: e2))])
  have hM : '\n' ∉ tagLine t := newline_not_mem_tagLine t hsha htag
  obtain ⟨pre, suf0, hJ, hpre⟩ :=
    joinSep_decomp (tagLine t) (e2.map tagLine) KEY_BINDINGS_MENU (e1.map tagLine)
  have hmap : (e1 ++ t :: e2).map tagLine
      = e1.map tagLine ++ tagLine t :: e2.map tagLine := by
    simp
  have hvne : (localBlock L
      ++ remoteConcat (gs ++ [(RemoteGroup.mk rname (e1 ++ t :: e2))])).isEmpty = false := by
    cases hc : localBlock L ++ remoteConcat (gs ++ [(RemoteGroup.mk rname (e1 ++ t :: e2))]) with
    | nil =>
      have h2 := List.append_eq_nil.mp hc
      rw [remoteConcat_append] at h2
      have h3 := List.append_eq_nil.mp h2.2
      exact absurd h3.2 (remoteBlockText_ne_nil _)
    | cons a tl => rfl
  have hBT : remoteBlockText (RemoteGroup.mk rname (e1 ++ t :: e2))
      = "\n  REMOTE (".data ++ rname ++ "):\n".data
        ++ joinSep '\n' ((e1 ++ t :: e2).map tagLine) ++ "\n".data := rfl
  have htext : (get_contents b r h (L.map TagItem.loc
        ++ (gs ++ [(RemoteGroup.mk rname (e1 ++ t :: e2))]).map TagItem.group)).1
      = (VIEW_HEADER_TEMPLATE_fmt b r h ++ localBlock L ++ remoteConcat gs
          ++ "\n  REMOTE (".data ++ rname ++ "):".data ++ pre)
        ++ '\n' :: (tagLine t ++ '\n' :: (suf0 ++ KEY_BINDINGS_MENU)) := by
    rw [get_contents_unfold]
    dsimp only
    rw [hsort]
    dsimp only
    simp only [hvne, Bool.false_eq_true, if_false]
    rw [remoteConcat_append, hBT, hmap]
    have eA : ("):\n".data : PyStr) = "):".data ++ ['\n'] := rfl
    have eB : ("\n".data : PyStr) = ['\n'] := rfl
    rw [eA, eB]
    simp only [List.append_assoc, List.singleton_append]
    rw [← hJ]
    simp only [List.cons_append, List.append_assoc]
  have h11 : (("\n  REMOTE (".data : PyStr)).length = 11 := rfl
  have h2c : (("):".data : PyStr)).length = 2 := rfl
  have hplen : ((VIEW_HEADER_TEMPLATE_fmt b r h ++ localBlock L ++ remoteConcat gs
        ++ "\n  REMOTE (".data ++ rname ++ "):".data ++ pre)).length
      = (VIEW_HEADER_TEMPLATE_fmt b r h).length + (localBlock L).length
        + (remoteConcat gs).length + 11 + rname.length + 2 + pre.length := by
    simp only [List.length_append, h11, h2c]
  have hsum : pre.length = (e1.map (fun e => (tagLine e).length + 1)).sum := by
    rw [hpre, List.map_map]
    rfl
  have hσ : remoteLineStart b r h L gs rname e1 + k
      = 0 + ((VIEW_HEADER_TEMPLATE_fmt b r h ++ localBlock L ++ remoteConcat gs
          ++ "\n  REMOTE (".data ++ rname ++ "):".data ++ pre)).length + 1 + k := by
    rw [hplen]
    simp only [remoteLineStart]
    rw [← hsum]
    omega
  have hR2 := remote_region_eq_last b r h
    (L.map TagItem.loc ++ (gs ++ [(RemoteGroup.mk rname (e1 ++ t :: e2))]).map TagItem.group)
    gs (RemoteGroup.mk rname (e1 ++ t :: e2)) (by rw [hsort])
  rw [hsort] at hR2
  dsimp only at hR2
  have hJlen := congrArg List.length hJ
  simp only [List.length_cons, List.length_append] at hJlen
  have hBTlen : (remoteBlockText (RemoteGroup.mk rname (e1 ++ t :: e2))).length
      = 11 + rname.length + 3
        + (joinSep '\n' (e1.map tagLine ++ tagLine t :: e2.map tagLine)).length + 1 := by
    rw [hBT, hmap]
    simp only [List.length_append]
    have h3c : (("):\n".data : PyStr)).length = 3 := rfl
    have h1c : (("\n".data : PyStr)).length = 1 := rfl
    rw [h11, h3c, h1c]
  have hrange : ((slice3 (get_contents b r h (L.map TagItem.loc
        ++ (gs ++ [(RemoteGroup.mk rname (e1 ++ t :: e2))]).map TagItem.group)).2).any fun rg =>
      decide (rg.a ≤ 0 + ((VIEW_HEADER_TEMPLATE_fmt b r h ++ localBlock L
        ++ remoteConcat gs ++ "\n  REMOTE (".data ++ rname ++ "):".data ++ pre)).length + 1) &&
      decide (0 + ((VIEW_HEADER_TEMPLATE_fmt b r h ++ localBlock L ++ remoteConcat gs
        ++ "\n  REMOTE (".data ++ rname ++ "):".data ++ pre)).length + 1
        + (tagLine t).length ≤ rg.b)) = true := by
    simp only [slice3, List.any_cons, List.any_nil, Bool.or_eq_true, Bool.and_eq_true,
      decide_eq_true_eq]
    refine Or.inr (Or.inl ⟨?_, ?_⟩)
    · rw [hR2]
      dsimp only
      rw [hplen]
      omega
    · rw [hR2, hBTlen]
      dsimp only
      rw [hplen]
      omega
  simp only [resolve_items, get_lines_from_regions]
  rw [hσ, htext]
  rw [keptLines_decomp (tagLine t) (suf0 ++ KEY_BINDINGS_MENU) hM
    (VIEW_HEADER_TEMPLATE_fmt b r h ++ localBlock L ++ remoteConcat gs
      ++ "\n  REMOTE (".data ++ rname ++ "):".data ++ pre) 0 k
    (slice3 (get_contents b r h (L.map TagItem.loc
      ++ (gs ++ [(RemoteGroup.mk rname (e1 ++ t :: e2))]).map TagItem.group)).2)
    (Nat.le_of_lt hk) hrange]
  have hnem : (tagLine t).isEmpty = false := rfl
  simp only [List.filter, hnem, Bool.not_false, List.map_cons, List.map_nil]
  rw [parse_tagLine t hsha htag]

/-- C2 (amended): the round trip holds exactly for entries whose line lies in
a block covered by a recorded range: the local block, and — since with
several remote groups only the last one's range is recorded — the last remote
block.  For every tag entry with a whitespace-free, non-empty name and short
hash rendered in either covered block, resolving any offset inside that
entry's line yields exactly the reference whose short hash is the first 7
characters of its `sha` and whose name is its `tag`. -/
theorem resolve_render_round_trip :
    (∀ (b r h : PyStr) (l1 l2 : List TagEntry) (t : TagEntry) (gs : List RemoteGroup)
        (k : Nat),
      isWord (t.sha.take 7) → isWord t.tag → k < (tagLine t).length →
      resolve_items
        (get_contents b r h ((l1 ++ t :: l2).map TagItem.loc ++ gs.map TagItem.group)).1
        [localLineStart b r h l1 + k]
        (slice3 (get_contents b r h
          ((l1 ++ t :: l2).map TagItem.loc ++ gs.map TagItem.group)).2)
        = [[t.sha.take 7, t.tag]]) ∧
    (∀ (b r h : PyStr) (L : List TagEntry) (gs : List RemoteGroup) (rname : PyStr)
        (e1 e2 : List TagEntry) (t : TagEntry) (k : Nat),
      isWord (t.sha.take 7) → isWord t.tag → k < (tagLine t).length →
      resolve_items
        (get_contents b r h (L.map TagItem.loc
          ++ (gs ++ [(RemoteGroup.mk rname (e1 ++ t :: e2))]).map TagItem.group)).1
        [remoteLineStart b r h L gs rname e1 + k]
        (slice3 (get_contents b r h (L.map TagItem.loc
          ++ (gs ++ [(RemoteGroup.mk rname (e1 ++ t :: e2))]).map TagItem.group)).2)
        = [[t.sha.take 7, t.tag]]) :=
  ⟨fun b r h l1 l2 t gs k hs ht hk =>
      local_block_round_trip b r h l1 l2 t gs k hs ht hk,
   fun b r h L gs rname e1 e2 t k hs ht hk =>
      remote_block_round_trip b r h L gs rname e1 e2 t k hs ht hk⟩

/-- C2 witness: the local tag `v1.0` (sha `abcdef1234`) resolves from offset 2
inside its line, and the same tag rendered in the single (hence last) remote
block `origin` resolves likewise. -/
theorem resolve_render_round_trip_witness :
    (resolve_items
        (get_contents "b".data "r".data "h".data
          (([] ++ (⟨"abcdef1234".data, "v1.0".data⟩ : TagEntry) :: []).map TagItem.loc
            ++ ([] : List RemoteGroup).map TagItem.group)).1
        [localLineStart "b".data "r".data "h".data [] + 2]
        (slice3 (get_contents "b".data "r".data "h".data
          (([] ++ (⟨"abcdef1234".data, "v1.0".data⟩ : TagEntry) :: []).map TagItem.loc
            ++ ([] : List RemoteGroup).map TagItem.group)).2)
        = [[("abcdef1234".data : PyStr).take 7, "v1.0".data]]) ∧
    (resolve_items
        (get_contents "b".data "r".data "h".data
          (([] : List TagEntry).map TagItem.loc
            ++ (([] : List RemoteGroup)
              ++ [(RemoteGroup.mk "origin".data ([] ++ (⟨"abcdef1234".data, "v1.0".data⟩ : TagEntry) :: []))]).map
                TagItem.group)).1
        [remoteLineStart "b".data "r".data "h".data [] [] "origin".data [] + 2]
        (slice3 (get_contents "b".data "r".data "h".data
          (([] : List TagEntry).map TagItem.loc
            ++ (([] : List RemoteGroup)
              ++ [(RemoteGroup.mk "origin".data ([] ++ (⟨"abcdef1234".data, "v1.0".data⟩ : TagEntry) :: []))]).map
                TagItem.group)).2)
        = [[("abcdef1234".data : PyStr).take 7, "v1.0".data]]) :=
  ⟨resolve_render_round_trip.1 "b".data "r".data "h".data [] []
      ⟨"abcdef1234".data, "v1.0".data⟩ [] 2 ⟨by decide, by decide⟩ ⟨by decide, by decide⟩
      (by decide),
   resolve_render_round_trip.2 "b".data "r".data "h".data [] [] "origin".data [] []
      ⟨"abcdef1234".data, "v1.0".data⟩ 2 ⟨by decide, by decide⟩ ⟨by decide, by decide⟩
      (by decide)⟩
